import Mathlib

/-!
Shallow embedding of the qaueue queue/record engine (`src/qaueue/db.py` and
the command handlers in `src/qaueue/views.py`).

The backing store is Redis; we model the slice of Redis state the engine
touches as a `Store`: the single pending-queue list (`qaueue_Q`, a list of
`item_id` strings) and the per-item hashes (an association list from
`item_id` to an association list of field/value pairs).  Redis commands
(`llen`, `lindex`, `lrem`, `rpush`, `lpush`, `linsert`, `hget`, `hset`,
`hmset`, `del`, `exists`) become pure functions on that state.  A
`MULTI`/`EXEC` transaction is modelled by computing the list of queued
commands from the pre-transaction state (exactly as the Python code does:
every read in the command bodies happens on the live connection before
`tr.execute()`) and then applying them in order.
-/

namespace QAueue

-- Status constants from `src/qaueue/constants.py` (`class statuses`).
namespace statuses

def INITIAL : String := "queued"

def COMPLETED : String := "released"

end statuses

/-- A Redis hash: field/value pairs, first binding of a field wins. -/
abbrev Hash := List (String × String)

/-- The Redis state the engine touches: the `qaueue_Q` list and the
per-item hashes keyed by `item_id`. -/
structure Store where
  queue : List String
  records : List (String × Hash)
deriving Repr, DecidableEq

/-- `HGET` on a hash value: first binding of the field. -/
def hashGet (h : Hash) (field : String) : Option String :=
  match h with
  | [] => none
  | (f, v) :: rest => if f = field then some v else hashGet rest field

/-- `HSET` on a hash value: overwrite the first binding, or append. -/
def hashSet (h : Hash) (field value : String) : Hash :=
  match h with
  | [] => [(field, value)]
  | (f, v) :: rest =>
      if f = field then (f, value) :: rest else (f, v) :: hashSet rest field value

/-- Look up the hash stored under a key (`none` when the key is absent). -/
def recordsGet (recs : List (String × Hash)) (key : String) : Option Hash :=
  match recs with
  | [] => none
  | (k, h) :: rest => if k = key then some h else recordsGet rest key

/-- `HSET key field value`: creates the hash when the key is absent. -/
def recordsHset (recs : List (String × Hash)) (key field value : String) :
    List (String × Hash) :=
  match recs with
  | [] => [(key, [(field, value)])]
  | (k, h) :: rest =>
      if k = key then (k, hashSet h field value) :: rest
      else (k, h) :: recordsHset rest key field value

/-- `HMSET key f1 v1 f2 v2 ...`: sets the fields in order. -/
def recordsHmset (recs : List (String × Hash)) (key : String) (pairs : List (String × String)) :
    List (String × Hash) :=
  match pairs with
  | [] => recs
  | (f, v) :: rest => recordsHmset (recordsHset recs key f v) key rest

/-- `DEL key`: removes the key and its hash. -/
def recordsDel (recs : List (String × Hash)) (key : String) : List (String × Hash) :=
  recs.filter (fun kv => kv.1 ≠ key)

/-- `EXISTS item_id == 1`, as used by `Item.exists` (db.py:100-109) and the
`conn.exists` checks in views.py. -/
def itemExists (s : Store) (itemId : String) : Bool :=
  (recordsGet s.records itemId).isSome

/-- `HGET item_id field` against the store. -/
def storeHget (s : Store) (itemId field : String) : Option String :=
  (recordsGet s.records itemId).bind (fun h => hashGet h field)

/-- `LREM qaueue_Q 0 v`: removes every occurrence of `v`
(the engine always calls `lrem` with count 0). -/
def lrem (q : List String) (v : String) : List String :=
  q.filter (fun x => x ≠ v)

/-- `LINSERT key AFTER pivot v` (aioredis `linsert` with the default
`before=False`): inserts `v` right after the first occurrence of `pivot`;
no-op when `pivot` is not in the list. -/
def linsertAfter (q : List String) (pivot v : String) : List String :=
  match q with
  | [] => []
  | x :: xs => if x = pivot then x :: v :: xs else x :: linsertAfter xs pivot v

/-- `QAueueQueue.item_priority` (db.py:194-204): linear scan for the first
index holding `item_id`; `None` when the id is not queued. -/
def item_priority (q : List String) (itemId : String) : Option Nat :=
  match q with
  | [] => none
  | x :: xs => if x = itemId then some 0 else (item_priority xs itemId).map (· + 1)

/-- The queue commands `QAueueQueue.prioritize` queues on its
`MULTI`/`EXEC` transaction.  `linsert`'s pivot is the value read by
`lindex` before the transaction runs, hence an `Option`; a `none` pivot is
unreachable for an in-range priority and is modelled like a pivot that is
absent from the list (no-op). -/
inductive QCmd where
  | lrem (v : String)
  | rpush (v : String)
  | lpush (v : String)
  | linsert (pivot : Option String) (v : String)
deriving Repr, DecidableEq

/-- Effect of one queued command on the `qaueue_Q` list. -/
def applyQCmd (q : List String) : QCmd → List String
  | .lrem v => lrem q v
  | .rpush v => q ++ [v]
  | .lpush v => v :: q
  | .linsert (some pivot) v => linsertAfter q pivot v
  | .linsert none _ => q

/-- `tr.execute()`: the queued commands run in order. -/
def applyQCmds (q : List String) (cmds : List QCmd) : List String :=
  cmds.foldl applyQCmd q

/-- The exceptions `QAueueQueue.prioritize` can raise (db.py:30-49).
`invalidItemStatus` is `InvalidItemStatusError` (the spec's
`ItemNotQueuedError` kind); `outOfRangePriorityIndex` is
`OutOfRangePriorityIndexError` (the spec's `OutOfRangePriorityError` kind),
carrying the constructor arguments from which its message is built. -/
inductive PrioritizeError where
  | invalidItemStatus (itemId : String)
  | outOfRangePriorityIndex (priorityIndex : Int) (rangeLen : Int)
deriving Repr, DecidableEq

/-- The message `OutOfRangePriorityIndexError.__init__` builds
(db.py:40-49), interpolating `index_min = 0`, `index_max = range_len - 1`,
`index_negative_min = -1`, `index_negative_max = -range_len`. -/
def outOfRangeMsg (priorityIndex rangeLen : Int) : String :=
  let indexMin : Int := 0
  let indexMax : Int := rangeLen - 1
  let indexNegativeMin : Int := -1
  let indexNegativeMax : Int := -rangeLen
  "Priority index '" ++ toString priorityIndex ++ "' is out of range. Valid ranges: " ++
    toString indexMin ++ " <= priority_index <= " ++ toString indexMax ++ ", " ++
    toString indexNegativeMin ++ " >= priority_index >= " ++ toString indexNegativeMax

/-- The command-building phase of `QAueueQueue.prioritize` (db.py:219-232)
for the already-normalized non-negative priority `p`: the three `if` blocks
are independent (not `elif`) and queue their commands onto the same
transaction in source order; `after_item_id` is read with `lindex` from the
pre-transaction list. -/
def prioritizeCore (q : List String) (itemId : String) (p : Int) : List String :=
  let queueLen : Int := q.length
  let cmds1 : List QCmd :=
    if p = queueLen - 1 then [.lrem itemId, .rpush itemId] else []
  let cmds2 : List QCmd :=
    if p = 0 then [.lrem itemId, .lpush itemId] else []
  let cmds3 : List QCmd :=
    if 1 ≤ p then
      let afterItemId : Option String := q[p.toNat]?
      if afterItemId ≠ some itemId then [.lrem itemId, .linsert afterItemId itemId]
      else []
    else []
  applyQCmds q (cmds1 ++ cmds2 ++ cmds3)

/-- `QAueueQueue.prioritize` (db.py:206-232).  `itemStatus` is the status
attribute of the in-memory `Item` passed in; the function only mutates the
queue list, so it takes and returns the list.  `queue_len` is
`len(await cls.items())`, i.e. the current list length.  Both `raise`s
fire before `tr.execute()`, so an error leaves the queue untouched.
A negative priority is normalized by adding the length
(`priority = queue_len + priority`). -/
def prioritize (q : List String) (itemStatus itemId : String) (priority : Int)
    (force : Bool := false) : Except PrioritizeError (List String) :=
  if itemStatus ≠ statuses.INITIAL ∧ force ≠ true then
    .error (.invalidItemStatus itemId)
  else
    let queueLen : Int := q.length
    if priority ≥ queueLen ∨ (priority < 0 ∧ -priority > queueLen) then
      .error (.outOfRangePriorityIndex priority queueLen)
    else
      .ok (prioritizeCore q itemId (if priority < 0 then queueLen + priority else priority))

/-- Modelled from the spec: the §4.3 `move_to_index` tie-break / algorithm
description, for the normalized target index `t` — "if `target_index == 0`,
remove-then-prepend (front). If `target_index == n-1`, remove-then-append
(back). Otherwise, remove the item, then re-insert immediately after the
element currently occupying the original `target_index` position (a
neighbor snapshot taken before removal), including the no-op short-circuit
when the neighbor at `target_index` is the item itself."  Stated for
comparison with `prioritizeCore`, the code's algorithm. -/
def moveToIndexSpec (q : List String) (itemId : String) (t : Nat) : List String :=
  if t = 0 then itemId :: lrem q itemId
  else if t = q.length - 1 then lrem q itemId ++ [itemId]
  else
    match q[t]? with
    | some nb => if nb = itemId then q else linsertAfter (lrem q itemId) nb itemId
    | none => q

/-- `QAueueQueue.add_to_queue` (db.py:234-245): plain `return` (i.e. `None`)
when the item is already queued; otherwise one transaction appends the id
and overwrites the record's `status` field with `statuses.INITIAL`, and the
item's fresh priority is returned. -/
def add_to_queue (s : Store) (itemId : String) : Option Nat × Store :=
  match item_priority s.queue itemId with
  | some _ => (none, s)
  | none =>
      let s' : Store :=
        { queue := s.queue ++ [itemId],
          records := recordsHset s.records itemId "status" statuses.INITIAL }
      (item_priority s'.queue itemId, s')

/-- The in-memory attributes `Item.__init__` (db.py:67-77) sets: `status`,
`url`, `name`, `released_at` from kwargs, `item_id` resolved from the url,
`type` classified from the url.  Identity resolution (`md5` of the url) and
classification are pure functions outside these claims, so the resolved
`item_id` and `type` are taken as parameters. -/
structure ItemObj where
  item_id : String
  status : Option String
  url : Option String
  name : Option String
  released_at : Option String
  type : Option String
deriving Repr, DecidableEq

/-- Helper for `Item.update`'s `if value is not None` filter: the field/value
pair to persist, empty when the attribute is `None`. -/
def optPair (field : String) (v : Option String) : List (String × String) :=
  match v with
  | none => []
  | some x => [(field, x)]

/-- `Item.update` (db.py:148-156): `HMSET` of every non-`None` attribute of
the in-memory item, iterating `fields.values()` in its (sorted) order
`name, released_at, status, type, url`.  (The snapshot's `constants.py`
also lists a `value` field that the `Item` class has no attribute for, and
`Item.__init__` references a `fields.ITEM_ID` that `constants.py` does not
define — both stale cross-references of a mid-refactor snapshot; the model
persists the attributes the `Item` class actually carries, the field set
the spec's §3/§6 give the record.) -/
def item_update (s : Store) (it : ItemObj) : Store :=
  { s with
    records := recordsHmset s.records it.item_id
      (optPair "name" it.name ++ optPair "released_at" it.released_at ++
        optPair "status" it.status ++ optPair "type" it.type ++ optPair "url" it.url) }

/-- `Item.create` (db.py:111-122) for a supported url: builds the item with
status defaulted to `statuses.INITIAL` and `released_at` unset, enqueues it
only when no record with its `item_id` exists yet, then unconditionally
persists the item's fields with `Item.update`.  No duplicate error is
raised on any path (db.py's `ItemAlreadyExistsError` is never raised). -/
def item_create (s : Store) (url : String) (name : Option String)
    (itemId itemType : String) : Store :=
  let it : ItemObj :=
    { item_id := itemId, status := some statuses.INITIAL, url := some url,
      name := name, released_at := none, type := some itemType }
  let s1 := if itemExists s itemId then s else (add_to_queue s itemId).2
  item_update s1 it

/-- `Item.remove` (db.py:161-165): when `item_priority` finds the item in
the queue, `remove_from_queue` (`LREM` count 0) excises it; then the record
key is deleted. -/
def item_remove (s : Store) (itemId : String) : Store :=
  let s1 :=
    if (item_priority s.queue itemId).isSome then { s with queue := lrem s.queue itemId }
    else s
  { s1 with records := recordsDel s1.records itemId }

/-- The result object `views.add_item` returns (views.py:37-48);
`priority_index` is the `llen` the transaction reports after the push. -/
structure AddItemResult where
  item : String
  item_id : String
  priority_index : Option Nat
  name : Option String
  err : Option String
deriving Repr, DecidableEq

/-- `views.add_item` (views.py:256-279), generic branch (an item that is
neither a Pivotal story url nor a GitHub PR url; the two url branches have
the same exists-check/transaction structure around external lookups).
`itemId` stands for `md5(item)`.  When the record already exists the
handler returns an error result and queues no command; otherwise one
transaction pushes the id and creates the record with `value` and
`state = states.INITIAL` (the views layer stores the status under the
field name `state`, its own `fields.STATE`). -/
def views_add_item (s : Store) (item itemId : String) : AddItemResult × Store :=
  if itemExists s itemId then
    ({ item := item, item_id := itemId, priority_index := none, name := none,
       err := some "Item already exists" }, s)
  else
    let q' := s.queue ++ [itemId]
    let recs' := recordsHmset s.records itemId
      [("value", item), ("state", statuses.INITIAL)]
    ({ item := item, item_id := itemId, priority_index := some q'.length, name := none,
       err := none }, { queue := q', records := recs' })

/-- `views.set_item_status` (views.py:401-427): no mutation when the record
does not exist; otherwise one transaction `LREM`s the id from the queue iff
the new status is `states.COMPLETED` (`'released'`) and `HSET`s the
record's `state` field to the new status.  Nothing writes `released_at`. -/
def set_item_status (s : Store) (itemId newStatus : String) : Store :=
  if itemExists s itemId then
    let q' := if newStatus = statuses.COMPLETED then lrem s.queue itemId else s.queue
    { queue := q', records := recordsHset s.records itemId "state" newStatus }
  else s

/-- One engine operation, for the queue-uniqueness invariant: `Item.create`
(= `addItem`), `QAueueQueue.prioritize` (= `reprioritize`/`move_to_index`,
with the in-memory item's status and the force flag), `set_item_status`
(= `setStatus`) and `Item.remove` (= `remove`). -/
inductive EngineOp where
  | createOp (url : String) (name : Option String) (itemId itemType : String)
  | reprioritizeOp (itemStatus itemId : String) (priority : Int) (force : Bool)
  | setStatusOp (itemId newStatus : String)
  | removeOp (itemId : String)
deriving Repr, DecidableEq

/-- Effect of one engine operation on the store; a raised
`PrioritizeError` leaves the store untouched (the exception fires before
`tr.execute()`). -/
def applyOp (s : Store) : EngineOp → Store
  | .createOp url name itemId itemType => item_create s url name itemId itemType
  | .reprioritizeOp itemStatus itemId priority force =>
      match prioritize s.queue itemStatus itemId priority force with
      | .ok q' => { s with queue := q' }
      | .error _ => s
  | .setStatusOp itemId newStatus => set_item_status s itemId newStatus
  | .removeOp itemId => item_remove s itemId

/-- A sequence of engine operations applied in order. -/
def applyOps (s : Store) (ops : List EngineOp) : Store :=
  ops.foldl applyOp s

end QAueue

namespace QAueue

/-! ### Helper lemmas about the queue-list primitives -/

theorem mem_lrem {q : List String} {v x : String} : x ∈ lrem q v ↔ x ∈ q ∧ x ≠ v := by
  simp [lrem, List.mem_filter]

theorem not_mem_lrem_self (q : List String) (v : String) : v ∉ lrem q v := by
  simp [mem_lrem]

theorem lrem_nodup {q : List String} (h : q.Nodup) (v : String) : (lrem q v).Nodup :=
  h.filter _

theorem lrem_of_not_mem {q : List String} {v : String} (h : v ∉ q) : lrem q v = q :=
  List.filter_eq_self.mpr fun a ha => by
    simp only [ne_eq, decide_eq_true_eq]
    exact fun hav => h (hav ▸ ha)

theorem lrem_append (q r : List String) (v : String) :
    lrem (q ++ r) v = lrem q v ++ lrem r v := by
  simp [lrem]

theorem lrem_lrem (q : List String) (v : String) : lrem (lrem q v) v = lrem q v :=
  lrem_of_not_mem (not_mem_lrem_self q v)

theorem lrem_cons_self (q : List String) (v : String) : lrem (v :: q) v = lrem q v := by
  simp [lrem, List.filter_cons]

theorem nodup_append_singleton {l : List String} {a : String} (hl : l.Nodup) (ha : a ∉ l) :
    (l ++ [a]).Nodup := by
  simp [List.nodup_append, hl, ha]

theorem mem_of_mem_linsertAfter {q : List String} {p v x : String}
    (h : x ∈ linsertAfter q p v) : x = v ∨ x ∈ q := by
  induction q with
  | nil => simp [linsertAfter] at h
  | cons y ys ih =>
      by_cases hyp : y = p
      · simp only [linsertAfter, if_pos hyp, List.mem_cons] at h
        rcases h with h | h | h
        · exact Or.inr (by simp [h])
        · exact Or.inl h
        · exact Or.inr (by simp [h])
      · simp only [linsertAfter, if_neg hyp, List.mem_cons] at h
        rcases h with h | h
        · exact Or.inr (by simp [h])
        · rcases ih h with h' | h'
          · exact Or.inl h'
          · exact Or.inr (List.mem_cons_of_mem _ h')

theorem linsertAfter_nodup {q : List String} {v : String} (hq : q.Nodup) (hv : v ∉ q)
    (p : String) : (linsertAfter q p v).Nodup := by
  induction q with
  | nil => simp [linsertAfter]
  | cons y ys ih =>
      rw [List.nodup_cons] at hq
      rw [List.mem_cons, not_or] at hv
      by_cases hyp : y = p
      · rw [linsertAfter, if_pos hyp]
        refine List.nodup_cons.mpr ⟨?_, List.nodup_cons.mpr ⟨hv.2, hq.2⟩⟩
        rw [List.mem_cons, not_or]
        exact ⟨fun h => hv.1 h.symm, hq.1⟩
      · rw [linsertAfter, if_neg hyp]
        refine List.nodup_cons.mpr ⟨?_, ih hq.2 hv.2⟩
        intro hmem
        rcases mem_of_mem_linsertAfter hmem with h | h
        · exact hv.1 h.symm
        · exact hq.1 h

theorem linsertAfter_append_self {L : List String} {p : String} (h : p ∉ L) (v : String) :
    linsertAfter (L ++ [p]) p v = L ++ [p, v] := by
  induction L with
  | nil => simp [linsertAfter]
  | cons x xs ih =>
      rw [List.mem_cons, not_or] at h
      have hx : ¬(x = p) := fun hxp => h.1 hxp.symm
      rw [List.cons_append]
      show (if x = p then x :: v :: (xs ++ [p]) else x :: linsertAfter (xs ++ [p]) p v)
          = x :: (xs ++ [p, v])
      rw [if_neg hx, ih h.2]

theorem item_priority_eq_none {q : List String} {v : String} :
    item_priority q v = none ↔ v ∉ q := by
  induction q with
  | nil => simp [item_priority]
  | cons x xs ih =>
      by_cases hx : x = v
      · subst hx; simp [item_priority]
      · have hvx : ¬(v = x) := fun h => hx h.symm
        simp [item_priority, hx, ih, hvx]

theorem item_priority_append_self {q : List String} {v : String} (h : v ∉ q) :
    item_priority (q ++ [v]) v = some q.length := by
  induction q with
  | nil => simp [item_priority]
  | cons x xs ih =>
      simp only [List.mem_cons, not_or] at h
      have hx : x ≠ v := fun hxv => h.1 hxv.symm
      simp [item_priority, hx, ih h.2]

end QAueue

namespace QAueue

/-! ### Helper lemmas about the record-hash primitives -/

theorem hashGet_hashSet_self (h : Hash) (f v : String) :
    hashGet (hashSet h f v) f = some v := by
  induction h with
  | nil => simp [hashSet, hashGet]
  | cons fv rest ih =>
      obtain ⟨g, w⟩ := fv
      by_cases hg : g = f
      · simp [hashSet, hashGet, hg]
      · simp only [hashSet, if_neg hg, hashGet]
        exact ih

theorem hashGet_hashSet_ne {f' f : String} (hne : f' ≠ f) (h : Hash) (v : String) :
    hashGet (hashSet h f v) f' = hashGet h f' := by
  have hne' : ¬(f = f') := Ne.symm hne
  induction h with
  | nil => simp [hashSet, hashGet, hne']
  | cons fv rest ih =>
      obtain ⟨g, w⟩ := fv
      by_cases hg : g = f
      · simp [hashSet, hashGet, hg, hne']
      · simp only [hashSet, if_neg hg, hashGet]
        by_cases hg' : g = f'
        · simp [hg']
        · simp [hg', ih]

theorem recordsGet_recordsHset_self (recs : List (String × Hash)) (k f v : String) :
    recordsGet (recordsHset recs k f v) k =
      some (hashSet ((recordsGet recs k).getD []) f v) := by
  induction recs with
  | nil => simp [recordsHset, recordsGet, hashSet]
  | cons kh rest ih =>
      obtain ⟨g, h⟩ := kh
      by_cases hk : g = k
      · simp [recordsHset, recordsGet, hk]
      · simp only [recordsHset, if_neg hk, recordsGet]
        exact ih

theorem recordsGet_recordsHset_ne {k' k : String} (hne : k' ≠ k)
    (recs : List (String × Hash)) (f v : String) :
    recordsGet (recordsHset recs k f v) k' = recordsGet recs k' := by
  have hne' : ¬(k = k') := Ne.symm hne
  induction recs with
  | nil => simp [recordsHset, recordsGet, hne']
  | cons kh rest ih =>
      obtain ⟨g, h⟩ := kh
      by_cases hk : g = k
      · simp [recordsHset, recordsGet, hk, hne']
      · simp only [recordsHset, if_neg hk, recordsGet]
        by_cases hk' : g = k'
        · simp [hk']
        · simp [hk', ih]

theorem recordsGet_recordsDel_self (recs : List (String × Hash)) (k : String) :
    recordsGet (recordsDel recs k) k = none := by
  induction recs with
  | nil => rfl
  | cons kh rest ih =>
      obtain ⟨g, h⟩ := kh
      by_cases hg : g = k
      · simpa [recordsDel, List.filter_cons, hg] using ih
      · simpa [recordsDel, recordsGet, List.filter_cons, hg] using ih

theorem recordsGet_recordsHmset_self (recs : List (String × Hash)) (k : String)
    (pairs : List (String × String)) (hne : pairs ≠ []) :
    recordsGet (recordsHmset recs k pairs) k =
      some (pairs.foldl (fun h fv => hashSet h fv.1 fv.2) ((recordsGet recs k).getD [])) := by
  induction pairs generalizing recs with
  | nil => exact absurd rfl hne
  | cons fv rest ih =>
      obtain ⟨f, v⟩ := fv
      rcases rest with _ | ⟨fv', rest'⟩
      · simp [recordsHmset, recordsGet_recordsHset_self]
      · rw [recordsHmset, ih (recordsHset recs k f v) (by simp)]
        rw [recordsGet_recordsHset_self]
        simp

end QAueue

namespace QAueue

/-! ### Behaviour of `prioritize` and the engine operations on the queue -/

theorem prioritizeCore_nodup {q : List String} (hq : q.Nodup) (itemId : String) (p : Int) :
    (prioritizeCore q itemId p).Nodup := by
  have hr := lrem_nodup hq itemId
  have hrm := not_mem_lrem_self q itemId
  have hra : lrem (lrem q itemId ++ [itemId]) itemId = lrem q itemId := by
    rw [lrem_append, lrem_lrem, lrem_cons_self]
    simp [lrem]
  simp only [prioritizeCore]
  by_cases h1 : p = (q.length : Int) - 1
  · rw [if_pos h1]
    by_cases h2 : p = 0
    · rw [if_pos h2, if_neg (by omega : ¬(1:Int) ≤ p)]
      simp only [List.append_nil, List.nil_append, List.cons_append, applyQCmds,
        List.foldl_cons, List.foldl_nil, applyQCmd]
      rw [hra]
      exact List.nodup_cons.mpr ⟨hrm, hr⟩
    · rw [if_neg h2]
      by_cases h3 : (1:Int) ≤ p
      · rw [if_pos h3]
        cases hpiv : q[p.toNat]? with
        | none =>
            rw [if_pos (by simp)]
            simp only [List.append_nil, List.nil_append, List.cons_append, applyQCmds,
              List.foldl_cons, List.foldl_nil, applyQCmd]
            rw [hra]
            exact hr
        | some nb =>
            by_cases h4 : nb = itemId
            · rw [if_neg (by simp [h4])]
              simp only [List.append_nil, List.nil_append, List.cons_append, applyQCmds,
                List.foldl_cons, List.foldl_nil, applyQCmd]
              exact nodup_append_singleton hr hrm
            · rw [if_pos (by simp [h4])]
              simp only [List.append_nil, List.nil_append, List.cons_append, applyQCmds,
                List.foldl_cons, List.foldl_nil, applyQCmd]
              rw [hra]
              exact linsertAfter_nodup hr hrm nb
      · rw [if_neg h3]
        simp only [List.append_nil, List.nil_append, List.cons_append, applyQCmds,
          List.foldl_cons, List.foldl_nil, applyQCmd]
        exact nodup_append_singleton hr hrm
  · rw [if_neg h1]
    by_cases h2 : p = 0
    · rw [if_pos h2, if_neg (by omega : ¬(1:Int) ≤ p)]
      simp only [List.append_nil, List.nil_append, List.cons_append, applyQCmds,
        List.foldl_cons, List.foldl_nil, applyQCmd]
      exact List.nodup_cons.mpr ⟨hrm, hr⟩
    · rw [if_neg h2]
      by_cases h3 : (1:Int) ≤ p
      · rw [if_pos h3]
        cases hpiv : q[p.toNat]? with
        | none =>
            rw [if_pos (by simp)]
            simp only [List.append_nil, List.nil_append, List.cons_append, applyQCmds,
              List.foldl_cons, List.foldl_nil, applyQCmd]
            exact hr
        | some nb =>
            by_cases h4 : nb = itemId
            · rw [if_neg (by simp [h4])]
              simpa [applyQCmds] using hq
            · rw [if_pos (by simp [h4])]
              simp only [List.append_nil, List.nil_append, List.cons_append, applyQCmds,
                List.foldl_cons, List.foldl_nil, applyQCmd]
              exact linsertAfter_nodup hr hrm nb
      · rw [if_neg h3]
        simpa [applyQCmds] using hq

theorem prioritize_ok_eq {q' q : List String} {itemStatus itemId : String}
    {priority : Int} {force : Bool}
    (h : prioritize q itemStatus itemId priority force = .ok q') :
    q' = prioritizeCore q itemId
        (if priority < 0 then (q.length : Int) + priority else priority) := by
  simp only [prioritize] at h
  split_ifs at h with h1 h2 h3 <;>
  first
    | exact Except.noConfusion h
    | (rw [if_pos h3]; exact (Except.ok.inj h).symm)
    | (rw [if_neg h3]; exact (Except.ok.inj h).symm)

theorem item_create_queue (s : Store) (url : String) (name : Option String)
    (itemId itemType : String) :
    (item_create s url name itemId itemType).queue = s.queue ∨
    ((item_create s url name itemId itemType).queue = s.queue ++ [itemId] ∧
      itemId ∉ s.queue) := by
  unfold item_create item_update add_to_queue
  by_cases he : itemExists s itemId
  · rw [if_pos he]
    left
    rfl
  · rw [if_neg he]
    cases hp : item_priority s.queue itemId with
    | some i => left; rfl
    | none => right; exact ⟨rfl, item_priority_eq_none.mp hp⟩

theorem applyOp_queue_nodup {s : Store} (h : s.queue.Nodup) (op : EngineOp) :
    (applyOp s op).queue.Nodup := by
  cases op with
  | createOp url name itemId itemType =>
      show (item_create s url name itemId itemType).queue.Nodup
      rcases item_create_queue s url name itemId itemType with hq | ⟨hq, hmem⟩
      · rw [hq]; exact h
      · rw [hq]; exact nodup_append_singleton h hmem
  | reprioritizeOp itemStatus itemId priority force =>
      simp only [applyOp]
      cases hres : prioritize s.queue itemStatus itemId priority force with
      | error e => exact h
      | ok q' =>
          show q'.Nodup
          rw [prioritize_ok_eq hres]
          exact prioritizeCore_nodup h itemId _
  | setStatusOp itemId newStatus =>
      show (set_item_status s itemId newStatus).queue.Nodup
      unfold set_item_status
      by_cases he : itemExists s itemId
      · rw [if_pos he]
        by_cases hc : newStatus = statuses.COMPLETED
        · rw [if_pos hc]; exact lrem_nodup h itemId
        · rw [if_neg hc]; exact h
      · rw [if_neg he]; exact h
  | removeOp itemId =>
      show (item_remove s itemId).queue.Nodup
      unfold item_remove
      by_cases hp : (item_priority s.queue itemId).isSome
      · rw [if_pos hp]; exact lrem_nodup h itemId
      · rw [if_neg hp]; exact h

end QAueue

namespace QAueue

/-! ### The prioritize algorithm versus the spec description -/

theorem lrem_singleton_self (v : String) : lrem [v] v = [] := by
  simp [lrem]

theorem lrem_append_self (q : List String) (v : String) :
    lrem (lrem q v ++ [v]) v = lrem q v := by
  rw [lrem_append, lrem_lrem, lrem_singleton_self, List.append_nil]

theorem linsertAfter_lrem_getLast {q : List String} {itemId nb : String}
    (hnd : q.Nodup) (hlast : q.getLast? = some nb) (hne : nb ≠ itemId) :
    linsertAfter (lrem q itemId) nb itemId = lrem q itemId ++ [itemId] := by
  obtain ⟨L, rfl⟩ := List.getLast?_eq_some_iff.mp hlast
  have hnbL : nb ∉ L := by
    have := List.nodup_append.mp hnd
    intro hmem
    exact this.2.2 hmem (List.mem_singleton_self nb)
  have hrw : lrem (L ++ [nb]) itemId = lrem L itemId ++ [nb] := by
    rw [lrem_append]
    congr 1
    simp [lrem, hne]
  rw [hrw, linsertAfter_append_self (fun hmem => hnbL (mem_lrem.mp hmem).1) itemId]
  simp

theorem prioritizeCore_eq_moveToIndexSpec {q : List String} {itemId : String} {p : Int}
    (hnd : q.Nodup) (hmem : itemId ∈ q) (h0 : 0 ≤ p) (hp : p < (q.length : Int)) :
    prioritizeCore q itemId p = moveToIndexSpec q itemId p.toNat := by
  have hn : 0 < q.length := List.length_pos.mpr (List.ne_nil_of_mem hmem)
  have hpt : (p.toNat : Int) = p := Int.toNat_of_nonneg h0
  have hptn : p.toNat < q.length := by omega
  simp only [prioritizeCore, moveToIndexSpec]
  by_cases ht0 : p.toNat = 0
  · have hp0 : p = 0 := by omega
    rw [if_pos hp0, if_neg (by omega : ¬(1:Int) ≤ p), if_pos ht0]
    by_cases hn1 : q.length = 1
    · rw [if_pos (by omega : p = (q.length : Int) - 1)]
      simp only [List.append_nil, List.nil_append, List.cons_append, applyQCmds,
        List.foldl_cons, List.foldl_nil, applyQCmd]
      rw [lrem_append_self]
    · rw [if_neg (by omega : ¬p = (q.length : Int) - 1)]
      simp only [List.append_nil, List.nil_append, List.cons_append, applyQCmds,
        List.foldl_cons, List.foldl_nil, applyQCmd]
  · have h1le : (1:Int) ≤ p := by omega
    rw [if_neg (by omega : ¬p = 0), if_pos h1le, if_neg ht0]
    obtain ⟨nb, hnb⟩ : ∃ nb, q[p.toNat]? = some nb :=
      ⟨q.get ⟨p.toNat, hptn⟩, List.getElem?_eq_getElem hptn⟩
    rw [hnb]
    by_cases htl : p.toNat = q.length - 1
    · have hpl : p = (q.length : Int) - 1 := by omega
      rw [if_pos hpl, if_pos htl]
      have hlast : q.getLast? = some nb := by
        rw [List.getLast?_eq_getElem?, ← htl]
        exact hnb
      by_cases heq : nb = itemId
      · rw [if_neg (by simp [heq])]
        simp only [List.append_nil, List.nil_append, List.cons_append, applyQCmds,
          List.foldl_cons, List.foldl_nil, applyQCmd]
      · rw [if_pos (by simp [heq])]
        simp only [List.append_nil, List.nil_append, List.cons_append, applyQCmds,
          List.foldl_cons, List.foldl_nil, applyQCmd]
        rw [lrem_append_self, linsertAfter_lrem_getLast hnd hlast heq]
    · have hplne : ¬p = (q.length : Int) - 1 := by omega
      rw [if_neg hplne, if_neg htl]
      dsimp only
      by_cases heq : nb = itemId
      · rw [if_neg (by simp [heq]), if_pos heq]
        simp [applyQCmds]
      · rw [if_pos (by simp [heq]), if_neg heq]
        simp only [List.append_nil, List.nil_append, List.cons_append, applyQCmds,
          List.foldl_cons, List.foldl_nil, applyQCmd]

theorem prioritize_guard_skip (q : List String) (itemId : String) (priority : Int) :
    prioritize q statuses.INITIAL itemId priority false =
      if priority ≥ (q.length : Int) ∨ (priority < 0 ∧ -priority > (q.length : Int)) then
        .error (.outOfRangePriorityIndex priority q.length)
      else
        .ok (prioritizeCore q itemId
          (if priority < 0 then (q.length : Int) + priority else priority)) := by
  simp only [prioritize]
  rw [if_neg (by simp)]

end QAueue

namespace QAueue

/-! ### Claim theorems -/

/-- C1 (counterexample): `Item.create` (db.py:111-122) on a content key
whose resolved `item_id` already exists raises no duplicate error and does
NOT leave the record unchanged: on a store where item `i` exists with
status `integration`, the second create resets the stored status to
`queued` (the unconditional `item.update()` re-persists the freshly built
item, whose status defaulted to `statuses.INITIAL`). -/
theorem item_create_duplicate_mutates_counterexample :
    storeHget (item_create ⟨[], [("i", [("status", "integration"), ("url", "u")])]⟩
        "u" none "i" "pivotal_story") "i" "status" = some "queued" ∧
    storeHget (⟨[], [("i", [("status", "integration"), ("url", "u")])]⟩ : Store)
        "i" "status" = some "integration" :=
  ⟨rfl, rfl⟩

/-- C1 (amended): when the resolved `item_id` already exists,
`views.add_item` returns an `AddItemResult` carrying the error
`"Item already exists"` and leaves the store unchanged; `db.Item.create`
raises no duplicate error — it leaves the queue sequence unchanged but
re-persists the record's fields, resetting the stored status to the
pending default `queued`. -/
theorem duplicate_add_rejected_at_views_layer (s : Store) (item itemId url : String)
    (name : Option String) (itemType : String)
    (hex : itemExists s itemId = true) :
    views_add_item s item itemId =
      ({ item := item, item_id := itemId, priority_index := none, name := none,
         err := some "Item already exists" }, s) ∧
    (item_create s url name itemId itemType).queue = s.queue ∧
    storeHget (item_create s url name itemId itemType) itemId "status" =
      some statuses.INITIAL := by
  refine ⟨?_, ?_, ?_⟩
  · simp [views_add_item, hex]
  · simp only [item_create, item_update]
    rw [if_pos hex]
  · simp only [item_create, item_update]
    rw [if_pos hex]
    simp only [storeHget]
    cases name with
    | none =>
        simp only [optPair, List.nil_append, List.append_nil, List.cons_append]
        rw [recordsGet_recordsHmset_self _ _ _ (by simp)]
        simp only [List.foldl_cons, List.foldl_nil, Option.some_bind]
        rw [hashGet_hashSet_ne (by decide), hashGet_hashSet_ne (by decide),
          hashGet_hashSet_self]
    | some nm =>
        simp only [optPair, List.nil_append, List.append_nil, List.cons_append]
        rw [recordsGet_recordsHmset_self _ _ _ (by simp)]
        simp only [List.foldl_cons, List.foldl_nil, Option.some_bind]
        rw [hashGet_hashSet_ne (by decide), hashGet_hashSet_ne (by decide),
          hashGet_hashSet_self]

/-- Witness for C1's amended theorem at a concrete store where `i` exists
with a non-pending status. -/
theorem duplicate_add_rejected_at_views_layer_witness :
    itemExists (Store.mk [] [("i", [("status", "integration")])]) "i" = true ∧
    (views_add_item (Store.mk [] [("i", [("status", "integration")])]) "u" "i" =
      ({ item := "u", item_id := "i", priority_index := none, name := none,
         err := some "Item already exists" },
        Store.mk [] [("i", [("status", "integration")])]) ∧
     (item_create (Store.mk [] [("i", [("status", "integration")])])
        "u" none "i" "pivotal_story").queue =
       (Store.mk [] [("i", [("status", "integration")])]).queue ∧
     storeHget (item_create (Store.mk [] [("i", [("status", "integration")])])
        "u" none "i" "pivotal_story") "i" "status" = some statuses.INITIAL) :=
  ⟨rfl, duplicate_add_rejected_at_views_layer
    (Store.mk [] [("i", [("status", "integration")])]) "u" "i" "u" none "pivotal_story" rfl⟩

/-- C2 (counterexample): on the four-item queue `[a,b,c,d]` with every item
pending, `QAueueQueue.prioritize` moving the item at index 3 (`d`) to
target index 1 yields the order `[a,b,d,c]` (original indices
`[0,1,3,2]`), not `[a,c,d,b]` (original indices `[0,2,3,1]`) as the claim
states: the code inserts `d` after the pre-removal neighbour `b`, so `d`
lands at index 2. -/
theorem reprioritize_last_to_middle_counterexample :
    prioritize ["a","b","c","d"] statuses.INITIAL "d" 1 = .ok ["a","b","d","c"] ∧
    (["a","b","d","c"] : List String) ≠ ["a","c","d","b"] :=
  ⟨rfl, by decide⟩

/-- C2 (amended): for the four pending items `[a,b,c,d]` at indices 0..3:
moving index 2 to 0 yields `[2,0,1,3]` (`[c,a,b,d]`); moving index 0 to 3
yields `[1,2,3,0]` (`[b,c,d,a]`); moving index 3 to 1 yields `[0,1,3,2]`
(`[a,b,d,c]`, the item landing at index 2, one past the requested index);
and moving any item to its own current index leaves the order unchanged
and raises no error. -/
theorem reprioritize_four_item_results :
    prioritize ["a","b","c","d"] statuses.INITIAL "c" 0 = .ok ["c","a","b","d"] ∧
    prioritize ["a","b","c","d"] statuses.INITIAL "a" 3 = .ok ["b","c","d","a"] ∧
    prioritize ["a","b","c","d"] statuses.INITIAL "d" 1 = .ok ["a","b","d","c"] ∧
    prioritize ["a","b","c","d"] statuses.INITIAL "a" 0 = .ok ["a","b","c","d"] ∧
    prioritize ["a","b","c","d"] statuses.INITIAL "b" 1 = .ok ["a","b","c","d"] ∧
    prioritize ["a","b","c","d"] statuses.INITIAL "c" 2 = .ok ["a","b","c","d"] ∧
    prioritize ["a","b","c","d"] statuses.INITIAL "d" 3 = .ok ["a","b","c","d"] :=
  ⟨rfl, rfl, rfl, rfl, rfl, rfl, rfl⟩

/-- C3 (counterexample): `QAueueQueue.add_to_queue` on an already-queued
item returns `None` (the bare `return` at db.py:237), not the item's
existing index `0`; the store is left unmutated. -/
theorem add_to_queue_present_returns_none_counterexample :
    (add_to_queue ⟨["i"], []⟩ "i").1 ≠ some 0 ∧
    item_priority (["i"] : List String) "i" = some 0 ∧
    (add_to_queue ⟨["i"], []⟩ "i").2 = ⟨["i"], []⟩ :=
  ⟨by decide, rfl, rfl⟩

/-- C3 (amended): for an already-queued `item_id`, `add_to_queue` returns
`None` (no index) and leaves the store unchanged; for an `item_id` not in
the sequence, it appends the id at the tail (also overwriting the record's
`status` field in the same transaction) and returns the new tail index. -/
theorem add_to_queue_append_if_absent (s : Store) (itemId : String) :
    (∀ i, item_priority s.queue itemId = some i → add_to_queue s itemId = (none, s)) ∧
    (item_priority s.queue itemId = none →
      add_to_queue s itemId =
        (some s.queue.length,
          { queue := s.queue ++ [itemId],
            records := recordsHset s.records itemId "status" statuses.INITIAL })) := by
  constructor
  · intro i hi
    simp [add_to_queue, hi]
  · intro h
    simp only [add_to_queue, h]
    rw [item_priority_append_self (item_priority_eq_none.mp h)]

/-- Witness for C3's amended theorem: both branches at concrete stores. -/
theorem add_to_queue_append_if_absent_witness :
    (item_priority (["i"] : List String) "i" = some 0 ∧
      add_to_queue (Store.mk ["i"] []) "i" = (none, Store.mk ["i"] [])) ∧
    (item_priority ([] : List String) "i" = none ∧
      add_to_queue (Store.mk [] []) "i" =
        (some 0, Store.mk ["i"] [("i", [("status", "queued")])])) :=
  ⟨⟨rfl, (add_to_queue_append_if_absent (Store.mk ["i"] []) "i").1 0 rfl⟩,
   ⟨rfl, ((add_to_queue_append_if_absent (Store.mk [] []) "i").2 rfl).trans (by rfl)⟩⟩

/-- C4: for every duplicate-free queue containing the item and every
in-range target index (negative targets normalized by adding the length),
`QAueueQueue.prioritize` returns exactly the sequence the spec's §4.3
algorithm describes (`moveToIndexSpec`): normalized target 0 →
remove-then-prepend; `n-1` → remove-then-append; otherwise remove and
re-insert immediately after the element that occupied the target position
before the removal, with the no-op short-circuit when that neighbour is
the item itself. -/
theorem prioritize_implements_spec_move (q : List String) (itemId : String) (priority : Int)
    (hnd : q.Nodup) (hmem : itemId ∈ q)
    (hlo : -(q.length : Int) ≤ priority) (hhi : priority < (q.length : Int)) :
    prioritize q statuses.INITIAL itemId priority false =
      .ok (moveToIndexSpec q itemId
        ((if priority < 0 then (q.length : Int) + priority else priority).toNat)) := by
  rw [prioritize_guard_skip, if_neg (by omega)]
  by_cases hneg : priority < 0
  · rw [if_pos hneg]
    exact congrArg Except.ok (prioritizeCore_eq_moveToIndexSpec hnd hmem (by omega) (by omega))
  · rw [if_neg hneg]
    exact congrArg Except.ok (prioritizeCore_eq_moveToIndexSpec hnd hmem (by omega) hhi)

/-- Witness for C4 at the concrete queue `[a,b,c,d]`, moving `d` with the
negative target `-3` (which normalizes to index 1). -/
theorem prioritize_implements_spec_move_witness :
    (["a","b","c","d"] : List String).Nodup ∧
    "d" ∈ (["a","b","c","d"] : List String) ∧
    prioritize ["a","b","c","d"] statuses.INITIAL "d" (-3) =
      .ok (moveToIndexSpec ["a","b","c","d"] "d"
        ((if (-3 : Int) < 0 then (((["a","b","c","d"] : List String).length : Int)) + (-3)
          else (-3)).toNat)) :=
  ⟨by decide, by decide,
    prioritize_implements_spec_move ["a","b","c","d"] "d" (-3) (by decide) (by decide)
      (by decide) (by decide)⟩

/-- C5: for every queue of length `n`, any pending (or forced) item and any
target index `≥ n` or `< -n`, `prioritize` fails with
`OutOfRangePriorityIndexError` carrying the priority and `n` (the raise
fires before `tr.execute()`, so the sequence is untouched), and the error
message built from those values states the inclusive bounds in positive
notation (`0 <= priority_index <= n-1`) and negative notation
(`-1 >= priority_index >= -n`). -/
theorem prioritize_out_of_range_error (q : List String) (itemStatus itemId : String)
    (priority : Int) (force : Bool)
    (hguard : itemStatus = statuses.INITIAL ∨ force = true)
    (hrange : priority ≥ (q.length : Int) ∨ priority < -(q.length : Int)) :
    prioritize q itemStatus itemId priority force =
      .error (.outOfRangePriorityIndex priority q.length) ∧
    ∃ s1 s2 s3 s4 : String,
      outOfRangeMsg priority q.length =
        s1 ++ "0" ++ s2 ++ toString ((q.length : Int) - 1) ++ s3 ++ "-1" ++ s4 ++
          toString (-(q.length : Int)) := by
  constructor
  · simp only [prioritize]
    rw [if_neg (by rcases hguard with h | h <;> simp [h])]
    rw [if_pos (by omega)]
  · refine ⟨"Priority index '" ++ toString priority ++ "' is out of range. Valid ranges: ",
      " <= priority_index <= ", ", ", " >= priority_index >= ", ?_⟩
    simp only [outOfRangeMsg]
    rw [show toString (0:Int) = "0" from rfl, show toString (-1:Int) = "-1" from rfl]

/-- Witness for C5 at a queue of length 4 with the boundary target
`n = 4`. -/
theorem prioritize_out_of_range_error_witness :
    (statuses.INITIAL = statuses.INITIAL ∨ false = true) ∧
    ((4 : Int) ≥ ((["a","b","c","d"] : List String).length : Int) ∨
      (4 : Int) < -((["a","b","c","d"] : List String).length : Int)) ∧
    prioritize ["a","b","c","d"] statuses.INITIAL "a" 4 false =
      .error (.outOfRangePriorityIndex 4 (["a","b","c","d"] : List String).length) :=
  ⟨Or.inl rfl, by decide,
    (prioritize_out_of_range_error ["a","b","c","d"] statuses.INITIAL "a" 4 false
      (Or.inl rfl) (by decide)).1⟩

end QAueue

namespace QAueue

/-- C6 (counterexample): `views.set_item_status` transitioning item `i` to
the completed status `released` persists the new status (under the views
layer's `state` field) and removes `i` from the queue, but does NOT set
`released_at`: no code path writes that field. -/
theorem set_item_status_no_released_at_counterexample :
    storeHget (set_item_status ⟨["i"], [("i", [("state", "queued")])]⟩ "i" statuses.COMPLETED)
        "i" "released_at" = none ∧
    storeHget (set_item_status ⟨["i"], [("i", [("state", "queued")])]⟩ "i" statuses.COMPLETED)
        "i" "state" = some statuses.COMPLETED ∧
    (set_item_status ⟨["i"], [("i", [("state", "queued")])]⟩ "i" statuses.COMPLETED).queue
      = [] :=
  ⟨rfl, rfl, rfl⟩

/-- C6 (amended): for every existing item, `set_item_status` with the
completed status `released` removes the item from the queue sequence and
persists the new status in the same transaction, so afterwards the item no
longer appears in the queue listing while its record still exists with the
stored status equal to `released`; `released_at` is left exactly as it
was (never set). -/
theorem set_item_status_completed_dequeues (s : Store) (itemId : String)
    (hex : itemExists s itemId = true) :
    itemId ∉ (set_item_status s itemId statuses.COMPLETED).queue ∧
    storeHget (set_item_status s itemId statuses.COMPLETED) itemId "state" =
      some statuses.COMPLETED ∧
    itemExists (set_item_status s itemId statuses.COMPLETED) itemId = true ∧
    storeHget (set_item_status s itemId statuses.COMPLETED) itemId "released_at" =
      storeHget s itemId "released_at" := by
  simp only [set_item_status]
  rw [if_pos hex]
  simp only [if_true, ite_true]
  refine ⟨not_mem_lrem_self _ _, ?_, ?_, ?_⟩
  · simp only [storeHget, recordsGet_recordsHset_self, Option.some_bind, hashGet_hashSet_self]
  · simp [itemExists, recordsGet_recordsHset_self]
  · simp only [storeHget, recordsGet_recordsHset_self, Option.some_bind]
    rw [hashGet_hashSet_ne (by decide)]
    cases hrec : recordsGet s.records itemId with
    | some h => simp
    | none =>
        rw [itemExists, hrec] at hex
        exact absurd hex (by simp)

/-- Witness for C6's amended theorem at a concrete store where the queued
record carries a prior `released_at` value. -/
theorem set_item_status_completed_dequeues_witness :
    itemExists (Store.mk ["i"] [("i", [("state", "queued"), ("released_at", "t0")])]) "i"
      = true ∧
    ("i" ∉ (set_item_status (Store.mk ["i"] [("i", [("state", "queued"), ("released_at", "t0")])])
        "i" statuses.COMPLETED).queue ∧
     storeHget (set_item_status (Store.mk ["i"] [("i", [("state", "queued"), ("released_at", "t0")])])
        "i" statuses.COMPLETED) "i" "state" = some statuses.COMPLETED ∧
     itemExists (set_item_status (Store.mk ["i"] [("i", [("state", "queued"), ("released_at", "t0")])])
        "i" statuses.COMPLETED) "i" = true ∧
     storeHget (set_item_status (Store.mk ["i"] [("i", [("state", "queued"), ("released_at", "t0")])])
        "i" statuses.COMPLETED) "i" "released_at" =
       storeHget (Store.mk ["i"] [("i", [("state", "queued"), ("released_at", "t0")])])
         "i" "released_at") :=
  ⟨rfl, set_item_status_completed_dequeues
    (Store.mk ["i"] [("i", [("state", "queued"), ("released_at", "t0")])]) "i" rfl⟩

/-- C7: the queue sequence never holds a duplicate `item_id`: starting from
any store whose queue is duplicate-free, any sequence of engine operations
(`Item.create`, `QAueueQueue.prioritize`, `set_item_status`, `Item.remove`)
leaves the queue duplicate-free. -/
theorem engine_ops_queue_nodup (ops : List EngineOp) (s : Store) (h : s.queue.Nodup) :
    (applyOps s ops).queue.Nodup := by
  induction ops generalizing s with
  | nil => exact h
  | cons op rest ih => exact ih _ (applyOp_queue_nodup h op)

/-- Witness for C7: a concrete operation sequence from the empty store. -/
theorem engine_ops_queue_nodup_witness :
    ([] : List String).Nodup ∧
    (applyOps (Store.mk [] [])
      [.createOp "u1" none "i1" "pivotal_story",
       .createOp "u2" none "i2" "github_pr",
       .createOp "u1" none "i1" "pivotal_story",
       .reprioritizeOp statuses.INITIAL "i2" 0 false,
       .setStatusOp "i1" statuses.COMPLETED,
       .removeOp "i2"]).queue.Nodup :=
  ⟨by decide, engine_ops_queue_nodup _ (Store.mk [] []) (by decide)⟩

/-- C8: `prioritize` on an item whose in-memory status is not the pending
status `queued` fails with `InvalidItemStatusError` when `force` is not
set (the raise fires before the transaction, so the sequence is untouched);
with `force` set the guard is bypassed, and an item with the pending status
is never rejected by this guard. -/
theorem prioritize_not_queued_guard (q : List String) (itemStatus itemId : String)
    (priority : Int) :
    (∀ force, itemStatus ≠ statuses.INITIAL → force = false →
      prioritize q itemStatus itemId priority force = .error (.invalidItemStatus itemId)) ∧
    (∀ force e, prioritize q statuses.INITIAL itemId priority force ≠
      .error (.invalidItemStatus e)) ∧
    (∀ e, prioritize q itemStatus itemId priority true ≠
      .error (.invalidItemStatus e)) := by
  refine ⟨?_, ?_, ?_⟩
  · intro force h1 h2
    simp only [prioritize]
    rw [if_pos ⟨h1, by simp [h2]⟩]
  · intro force e
    simp only [prioritize]
    rw [if_neg (by simp)]
    split_ifs <;> simp
  · intro e
    simp only [prioritize]
    rw [if_neg (by simp)]
    split_ifs <;> simp

/-- Witness for C8: all three guard behaviours at concrete inputs. -/
theorem prioritize_not_queued_guard_witness :
    prioritize ["a"] "integration" "a" 0 false = .error (.invalidItemStatus "a") ∧
    prioritize ["a"] statuses.INITIAL "a" 0 false ≠ .error (.invalidItemStatus "a") ∧
    prioritize ["a"] "integration" "a" 0 true ≠ .error (.invalidItemStatus "a") :=
  ⟨(prioritize_not_queued_guard ["a"] "integration" "a" 0).1 false (by decide) rfl,
   (prioritize_not_queued_guard ["a"] "integration" "a" 0).2.1 false "a",
   (prioritize_not_queued_guard ["a"] "integration" "a" 0).2.2 "a"⟩

/-- C9: after `Item.remove` on an existing item, the record no longer
exists and the item's queue priority is absent — the queue entry (when
present) is excised by the same call that deletes the record, so no
dangling reference to the removed id remains in the sequence. -/
theorem item_remove_clears_queue_and_record (s : Store) (itemId : String)
    (hex : itemExists s itemId = true) :
    itemExists (item_remove s itemId) itemId = false ∧
    item_priority (item_remove s itemId).queue itemId = none := by
  simp only [item_remove]
  by_cases hp : (item_priority s.queue itemId).isSome
  · rw [if_pos hp]
    exact ⟨by simp [itemExists, recordsGet_recordsDel_self],
      item_priority_eq_none.mpr (not_mem_lrem_self _ _)⟩
  · rw [if_neg hp]
    exact ⟨by simp [itemExists, recordsGet_recordsDel_self],
      Option.not_isSome_iff_eq_none.mp hp⟩

/-- Witness for C9 at a concrete store with the item queued. -/
theorem item_remove_clears_queue_and_record_witness :
    itemExists (Store.mk ["i"] [("i", [("status", "queued")])]) "i" = true ∧
    (itemExists (item_remove (Store.mk ["i"] [("i", [("status", "queued")])]) "i") "i"
        = false ∧
     item_priority (item_remove (Store.mk ["i"] [("i", [("status", "queued")])]) "i").queue
        "i" = none) :=
  ⟨rfl, item_remove_clears_queue_and_record
    (Store.mk ["i"] [("i", [("status", "queued")])]) "i" rfl⟩

/-- C10: for an item whose id is not yet in the queue sequence,
`add_to_queue`'s transaction both appends the id at the tail and `HSET`s
the record's `status` field to the pending default `queued` — so whatever
status the record held before, it is reset by the enqueue. -/
theorem add_to_queue_overwrites_status (s : Store) (itemId : String)
    (h : item_priority s.queue itemId = none) :
    (add_to_queue s itemId).2.queue = s.queue ++ [itemId] ∧
    storeHget (add_to_queue s itemId).2 itemId "status" = some statuses.INITIAL := by
  constructor
  · simp [add_to_queue, h]
  · simp only [add_to_queue, h]
    simp only [storeHget, recordsGet_recordsHset_self, Option.some_bind, hashGet_hashSet_self]

/-- Witness for C10 at a store whose record holds the non-pending status
`released` before the enqueue. -/
theorem add_to_queue_overwrites_status_witness :
    item_priority ([] : List String) "i" = none ∧
    ((add_to_queue (Store.mk [] [("i", [("status", "released")])]) "i").2.queue
        = [] ++ ["i"] ∧
     storeHget (add_to_queue (Store.mk [] [("i", [("status", "released")])]) "i").2
        "i" "status" = some statuses.INITIAL) :=
  ⟨rfl, add_to_queue_overwrites_status (Store.mk [] [("i", [("status", "released")])]) "i" rfl⟩

end QAueue
